import Mathlib

/-!
Verification development for the FHA (Functional Hazard Analysis) hazard-register
engine of this repository.

The register is a pandas `DataFrame` whose columns are the fixed schema
`FHA_Model.TABLE_COLUMNS` (twelve text columns) and whose row index is, after
every structural mutation, the canonical range `0 .. n-1`.  We embed the
register as a `List Entry` where `Entry` is a record with one `String` field
per schema column; the canonical row labels are implicit positions except for
`update_cell`, whose pandas `.loc` label semantics (including label-based
enlargement on a missing label) is modelled explicitly with labelled rows and
nullable cells.

The two near-identical model variants in the source are
`src/fha_core_logic.py` (used by the desktop GUI) and `src/fha_api.py`
(FastAPI service); the dashboard analytics live in `src/fha_api.py`
(`get_dashboard_data`) and `src/fha_api_new/fha_api0.py` (`get_dashboard_kpis`,
`get_sunburst_data`, `get_cross_analysis_data`).  Where the two variants of an
operation coincide extensionally we define it once and the doc comment cites
both; where they differ (`load_dataframe`, `delete_rows`) each variant gets
its own definition.  The `next_id` counter kept by the variants is write-only
bookkeeping (no operation modelled here reads it), so it is not part of the
state.
-/

namespace FHA

/-- One hazard-register row.  The fields correspond, in order, to the schema
columns `FHA_Model.TABLE_COLUMNS` of `src/fha_core_logic.py` lines 24-29 and
`src/fha_api.py` lines 28-32:
`编号` (idNo), `一级功能` (funcL1), `二级功能` (funcL2), `三级功能` (funcL3),
`功能类型` (funcType), `飞行阶段` (phase), `失效状态` (failureState),
`对于飞行器的影响` (impactAircraft), `对于地面/空域的影响` (impactAirspace),
`对于地面控制组的影响` (impactGroundCtrl), `危害性分类` (hazardCategory),
`理由/备注` (rationale).  All cells are text; a missing value is the empty
string (every load path runs `fillna('')` / defaults to `''`). -/
structure Entry where
  idNo : String
  funcL1 : String
  funcL2 : String
  funcL3 : String
  funcType : String
  phase : String
  failureState : String
  impactAircraft : String
  impactAirspace : String
  impactGroundCtrl : String
  hazardCategory : String
  rationale : String
deriving DecidableEq, Repr

/-- `FHA_Model.TABLE_COLUMNS`: the fixed ordered column list
(`src/fha_core_logic.py` lines 24-29, identical in `src/fha_api.py`). -/
def TABLE_COLUMNS : List String :=
  ["编号", "一级功能", "二级功能", "三级功能", "功能类型", "飞行阶段",
   "失效状态", "对于飞行器的影响", "对于地面/空域的影响", "对于地面控制组的影响",
   "危害性分类", "理由/备注"]

/-- `FHA_Model.ARP4761_CATEGORIES`: the fixed ordered severity taxonomy
(`src/fha_core_logic.py` lines 30-34, identical in `src/fha_api.py`). -/
def ARP4761_CATEGORIES : List String :=
  ["", "灾难的 (Catastrophic)", "危险的 (Hazardous)", "严重的 (Major)",
   "轻微的 (Minor)", "无安全影响 (No Safety Effect)"]

/-- The schema columns as a closed enumeration, in `TABLE_COLUMNS` order. -/
inductive Field
  | idNo | funcL1 | funcL2 | funcL3 | funcType | phase | failureState
  | impactAircraft | impactAirspace | impactGroundCtrl | hazardCategory | rationale
deriving DecidableEq, Repr

/-- The schema column name of a field. -/
def colName : Field → String
  | .idNo => "编号"
  | .funcL1 => "一级功能"
  | .funcL2 => "二级功能"
  | .funcL3 => "三级功能"
  | .funcType => "功能类型"
  | .phase => "飞行阶段"
  | .failureState => "失效状态"
  | .impactAircraft => "对于飞行器的影响"
  | .impactAirspace => "对于地面/空域的影响"
  | .impactGroundCtrl => "对于地面控制组的影响"
  | .hazardCategory => "危害性分类"
  | .rationale => "理由/备注"

/-- Resolve a column-name string against the schema; `none` for a name outside
it.  This is the lookup a data frame performs for `df[column_name]` /
`column_name in df.columns`. -/
def parseColumn (c : String) : Option Field :=
  if c = "编号" then some .idNo
  else if c = "一级功能" then some .funcL1
  else if c = "二级功能" then some .funcL2
  else if c = "三级功能" then some .funcL3
  else if c = "功能类型" then some .funcType
  else if c = "飞行阶段" then some .phase
  else if c = "失效状态" then some .failureState
  else if c = "对于飞行器的影响" then some .impactAircraft
  else if c = "对于地面/空域的影响" then some .impactAirspace
  else if c = "对于地面控制组的影响" then some .impactGroundCtrl
  else if c = "危害性分类" then some .hazardCategory
  else if c = "理由/备注" then some .rationale
  else none

/-- Read one field of an entry. -/
def getField (e : Entry) : Field → String
  | .idNo => e.idNo
  | .funcL1 => e.funcL1
  | .funcL2 => e.funcL2
  | .funcL3 => e.funcL3
  | .funcType => e.funcType
  | .phase => e.phase
  | .failureState => e.failureState
  | .impactAircraft => e.impactAircraft
  | .impactAirspace => e.impactAirspace
  | .impactGroundCtrl => e.impactGroundCtrl
  | .hazardCategory => e.hazardCategory
  | .rationale => e.rationale

/-- Overwrite one field of an entry. -/
def setField (e : Entry) (f : Field) (v : String) : Entry :=
  match f with
  | .idNo => { e with idNo := v }
  | .funcL1 => { e with funcL1 := v }
  | .funcL2 => { e with funcL2 := v }
  | .funcL3 => { e with funcL3 := v }
  | .funcType => { e with funcType := v }
  | .phase => { e with phase := v }
  | .failureState => { e with failureState := v }
  | .impactAircraft => { e with impactAircraft := v }
  | .impactAirspace => { e with impactAirspace := v }
  | .impactGroundCtrl => { e with impactGroundCtrl := v }
  | .hazardCategory => { e with hazardCategory := v }
  | .rationale => { e with rationale := v }

/-- Read the cell of a named schema column; `none` for a name outside the
schema.  This is `row[column_name]` on a data-frame row. -/
def getCol (e : Entry) (c : String) : Option String :=
  (parseColumn c).map (getField e)

/-- Overwrite the cell of a named schema column; `none` for a name outside the
schema.  This is `df.loc[lbl, column_name] = v` restricted to one row whose
label exists. -/
def setCol (e : Entry) (c : String) (v : String) : Option Entry :=
  (parseColumn c).map (fun f => setField e f v)

/-- A raw input row: an ordered association of column names to text values, the
shape of the `dict` rows handed to `add_fha_entries` / `load_dataframe` and of
the wizard override dicts. -/
abbrev RawRow : Type := List (String × String)

/-- Build an `Entry` from a raw row: every schema column takes the row's value
when present, else empty text.  This is `{k: entry.get(k, '') for k in
TABLE_COLUMNS}` (`src/fha_core_logic.py` line 64) and equally
`pd.DataFrame(rows, columns=TABLE_COLUMNS).fillna('')` /
`df.reindex(columns=TABLE_COLUMNS).fillna('')`: schema columns missing from the
row become empty text and keys outside the schema are dropped. -/
def fromRow (r : RawRow) : Entry :=
  { idNo := (List.lookup "编号" r).getD ""
    funcL1 := (List.lookup "一级功能" r).getD ""
    funcL2 := (List.lookup "二级功能" r).getD ""
    funcL3 := (List.lookup "三级功能" r).getD ""
    funcType := (List.lookup "功能类型" r).getD ""
    phase := (List.lookup "飞行阶段" r).getD ""
    failureState := (List.lookup "失效状态" r).getD ""
    impactAircraft := (List.lookup "对于飞行器的影响" r).getD ""
    impactAirspace := (List.lookup "对于地面/空域的影响" r).getD ""
    impactGroundCtrl := (List.lookup "对于地面控制组的影响" r).getD ""
    hazardCategory := (List.lookup "危害性分类" r).getD ""
    rationale := (List.lookup "理由/备注" r).getD "" }

/-- Apply a partial override on top of an entry: every schema column named by
the override takes the override's value, every other column keeps the entry's
value.  This is `new_entry.update(result)` on a pandas `Series`
(`src/fha_core_logic.py` line 83, `src/fha_api.py` line 75): keys align on the
schema index, keys outside it are ignored. -/
def updateRow (e : Entry) (r : RawRow) : Entry :=
  { idNo := (List.lookup "编号" r).getD e.idNo
    funcL1 := (List.lookup "一级功能" r).getD e.funcL1
    funcL2 := (List.lookup "二级功能" r).getD e.funcL2
    funcL3 := (List.lookup "三级功能" r).getD e.funcL3
    funcType := (List.lookup "功能类型" r).getD e.funcType
    phase := (List.lookup "飞行阶段" r).getD e.phase
    failureState := (List.lookup "失效状态" r).getD e.failureState
    impactAircraft := (List.lookup "对于飞行器的影响" r).getD e.impactAircraft
    impactAirspace := (List.lookup "对于地面/空域的影响" r).getD e.impactAirspace
    impactGroundCtrl := (List.lookup "对于地面控制组的影响" r).getD e.impactGroundCtrl
    hazardCategory := (List.lookup "危害性分类" r).getD e.hazardCategory
    rationale := (List.lookup "理由/备注" r).getD e.rationale }

/-- Python's `f"{n:03d}"`: decimal digits of `n`, left-padded with zeros to at
least three characters (wider numbers keep all their digits). -/
def pad3 (n : Nat) : String :=
  if n < 10 then "00" ++ toString n
  else if n < 100 then "0" ++ toString n
  else toString n

/-- The derived identifier for the row at 0-based position `i`:
`f"FHA-{i + 1:03d}"` (`src/fha_core_logic.py` line 100, `src/fha_api.py`
line 84). -/
def fhaId (i : Nat) : String := "FHA-" ++ pad3 (i + 1)

/-- The renumbering loop of `re_number_ids` starting at position `k`:
`for i in range(len(df)): df.loc[i, '编号'] = f"FHA-{i+1:03d}"`. -/
def reNumberFrom (k : Nat) : List Entry → List Entry
  | [] => []
  | e :: es => { e with idNo := fhaId k } :: reNumberFrom (k + 1) es

/-- `FHA_Model.re_number_ids` (`src/fha_core_logic.py` lines 97-101,
`src/fha_api.py` lines 81-84): rewrite every row's `编号` cell to the derived
identifier of its position.  The api variant's early return on an empty frame
is extensionally the empty loop.  (`next_id = len + 1` in the core variant is
unread bookkeeping.) -/
def re_number_ids (l : List Entry) : List Entry := reNumberFrom 0 l

/-- The identifier invariant of the spec: the `编号` cell of the row at every
position `i` is `"FHA-" ++ pad3 (i+1)`. -/
def idsNumbered (l : List Entry) : Prop :=
  ∀ i, (h : i < l.length) → (l.get ⟨i, h⟩).idNo = fhaId i

theorem length_reNumberFrom (k : Nat) (l : List Entry) :
    (reNumberFrom k l).length = l.length := by
  induction l generalizing k with
  | nil => rfl
  | cons e es ih => simp [reNumberFrom, ih]

theorem get_reNumberFrom (k : Nat) (l : List Entry) (i : Nat)
    (h : i < (reNumberFrom k l).length) (h' : i < l.length) :
    (reNumberFrom k l).get ⟨i, h⟩ = { l.get ⟨i, h'⟩ with idNo := fhaId (k + i) } := by
  induction l generalizing k i with
  | nil => exact absurd h' (by simp)
  | cons e es ih =>
    cases i with
    | zero => simp [reNumberFrom]
    | succ j =>
      have hj : j < es.length := by simpa using h'
      have := ih (k + 1) j (by simpa [reNumberFrom, length_reNumberFrom] using h) hj
      simpa [reNumberFrom, Nat.add_assoc, Nat.add_comm 1 j] using this

theorem idsNumbered_re_number_ids (l : List Entry) : idsNumbered (re_number_ids l) := by
  intro i h
  have h' : i < l.length := by simpa [re_number_ids, length_reNumberFrom] using h
  have hg := get_reNumberFrom 0 l i h h'
  show ((reNumberFrom 0 l).get ⟨i, h⟩).idNo = fhaId i
  rw [hg]
  simp

/-- Strip the derived identifier from an entry, keeping the eleven user-data
columns; two entries are "equal apart from the identifier" when their
`eraseId` images agree. -/
def eraseId (e : Entry) : Entry := { e with idNo := "" }

theorem map_eraseId_reNumberFrom (k : Nat) (l : List Entry) :
    (reNumberFrom k l).map eraseId = l.map eraseId := by
  induction l generalizing k with
  | nil => rfl
  | cons e es ih => simp [reNumberFrom, eraseId, ih]

theorem length_re_number_ids (l : List Entry) : (re_number_ids l).length = l.length :=
  length_reNumberFrom 0 l

theorem map_eraseId_re_number_ids (l : List Entry) :
    (re_number_ids l).map eraseId = l.map eraseId :=
  map_eraseId_reNumberFrom 0 l

/-- `FHA_Model.load_dataframe` of the FastAPI variant (`src/fha_api.py` lines
41-44): reset the row index, reindex onto the fixed schema with missing cells
filled by empty text, then renumber. -/
def api_load_dataframe (rows : List RawRow) : List Entry :=
  re_number_ids (rows.map fromRow)

/-- `FHA_Model.load_dataframe` of the GUI-core variant (`src/fha_core_logic.py`
lines 50-57): reindex onto the fixed schema with missing cells filled by empty
text.  It does NOT renumber — the loaded `编号` cells are kept as given; the
method only recomputes the unread `next_id` counter from their digits. -/
def core_load_dataframe (rows : List RawRow) : List Entry :=
  rows.map fromRow

/-- `FHA_Model.add_fha_entries` (`src/fha_core_logic.py` lines 59-69,
`src/fha_api.py` lines 61-65): no-op on an empty batch; otherwise coerce each
raw row onto the schema (missing fields empty, unknown keys dropped), append
in input order, and renumber. -/
def add_fha_entries (reg : List Entry) (entries : List RawRow) : List Entry :=
  if entries.isEmpty then reg
  else re_number_ids (reg ++ entries.map fromRow)

/-- The row filter of `delete_rows`: keep the rows whose 0-based position
(equal to their index label) is not in the given list, preserving order.
`k` is the position of the head of the remaining list. -/
def keepNotIn (idxs : List Int) : Nat → List Entry → List Entry
  | _, [] => []
  | k, e :: es =>
    if idxs.contains (k : Int) then keepNotIn idxs (k + 1) es
    else e :: keepNotIn idxs (k + 1) es

/-- `FHA_Model.delete_rows` of the FastAPI variant (`src/fha_api.py` lines
51-59): no-op on an empty position list or an empty register; otherwise keep
exactly the rows whose index is not a member of the position set (out-of-range
and duplicate positions are thereby ignored), compact, and renumber.  The
source's special case replacing an empty survivor list by a fresh empty frame
is extensionally renumbering the empty list. -/
def api_delete_rows (reg : List Entry) (idxs : List Int) : List Entry :=
  if idxs.isEmpty || reg.isEmpty then reg
  else re_number_ids (keepNotIn idxs 0 reg)

/-- `FHA_Model.delete_rows` of the GUI-core variant (`src/fha_core_logic.py`
lines 91-95): no-op on an empty position list; otherwise
`df.drop(row_indices)` — label-based deletion, which raises `KeyError` as soon
as any requested label is absent from the index `0 .. n-1` (in particular for
any out-of-range or negative position); in-range duplicates are tolerated.
On success the survivors are compacted and renumbered. -/
def core_delete_rows (reg : List Entry) (idxs : List Int) : Except String (List Entry) :=
  if idxs.isEmpty then .ok reg
  else if idxs.all (fun j => decide (0 ≤ j) && decide (j < (reg.length : Int))) then
    .ok (re_number_ids (keepNotIn idxs 0 reg))
  else .error "KeyError: labels not found in axis"

/-- `FHA_Model.update_fha_entries_from_wizard` (`src/fha_core_logic.py` lines
71-89, `src/fha_api.py` lines 67-79; the two bodies differ only in the order
of pure reads and in the core variant's unread `next_id` update): no-op on an
empty result list; otherwise read the source row (`df.loc[source_index]`
raises `KeyError` when the label is not in the index `0 .. n-1`), build one
derived entry per override by cloning the source row and applying the
override on top, and replace the source row by the derived block:
`before ++ derived ++ after`, then renumber. -/
def update_fha_entries_from_wizard (reg : List Entry) (sourceIdx : Int)
    (results : List RawRow) : Except String (List Entry) :=
  if results.isEmpty then .ok reg
  else if h : 0 ≤ sourceIdx ∧ sourceIdx < (reg.length : Int) then
    let i : Nat := sourceIdx.toNat
    let src := reg.get ⟨i, by omega⟩
    .ok (re_number_ids
      (reg.take i ++ results.map (fun r => updateRow src r) ++ reg.drop (i + 1)))
  else .error "KeyError: source_index not in index"

/-- A row as stored after a label-based enlargement: pandas fills the columns
not assigned by the enlarging write with `NaN`, so cells are nullable
(`none` = `NaN`, `some s` = the text `s`). -/
structure EntryN where
  idNo : Option String
  funcL1 : Option String
  funcL2 : Option String
  funcL3 : Option String
  funcType : Option String
  phase : Option String
  failureState : Option String
  impactAircraft : Option String
  impactAirspace : Option String
  impactGroundCtrl : Option String
  hazardCategory : Option String
  rationale : Option String
deriving DecidableEq, Repr

/-- View an ordinary all-text entry as a nullable row (no `NaN` cells). -/
def entryToN (e : Entry) : EntryN :=
  { idNo := some e.idNo, funcL1 := some e.funcL1, funcL2 := some e.funcL2
    funcL3 := some e.funcL3, funcType := some e.funcType, phase := some e.phase
    failureState := some e.failureState, impactAircraft := some e.impactAircraft
    impactAirspace := some e.impactAirspace, impactGroundCtrl := some e.impactGroundCtrl
    hazardCategory := some e.hazardCategory, rationale := some e.rationale }

/-- The all-`NaN` row. -/
def blankN : EntryN :=
  { idNo := none, funcL1 := none, funcL2 := none, funcL3 := none
    funcType := none, phase := none, failureState := none, impactAircraft := none
    impactAirspace := none, impactGroundCtrl := none, hazardCategory := none
    rationale := none }

/-- Read one (nullable) field of an enlarged row. -/
def getFieldN (e : EntryN) : Field → Option String
  | .idNo => e.idNo
  | .funcL1 => e.funcL1
  | .funcL2 => e.funcL2
  | .funcL3 => e.funcL3
  | .funcType => e.funcType
  | .phase => e.phase
  | .failureState => e.failureState
  | .impactAircraft => e.impactAircraft
  | .impactAirspace => e.impactAirspace
  | .impactGroundCtrl => e.impactGroundCtrl
  | .hazardCategory => e.hazardCategory
  | .rationale => e.rationale

/-- Overwrite one field of a nullable row with a text value. -/
def setFieldN (e : EntryN) (f : Field) (v : String) : EntryN :=
  match f with
  | .idNo => { e with idNo := some v }
  | .funcL1 => { e with funcL1 := some v }
  | .funcL2 => { e with funcL2 := some v }
  | .funcL3 => { e with funcL3 := some v }
  | .funcType => { e with funcType := some v }
  | .phase => { e with phase := some v }
  | .failureState => { e with failureState := some v }
  | .impactAircraft => { e with impactAircraft := some v }
  | .impactAirspace => { e with impactAirspace := some v }
  | .impactGroundCtrl => { e with impactGroundCtrl := some v }
  | .hazardCategory => { e with hazardCategory := some v }
  | .rationale => { e with rationale := some v }

/-- Read the cell of a named schema column of a nullable row; outer `none` for
a name outside the schema, inner `none` for a `NaN` cell. -/
def getColN (e : EntryN) (c : String) : Option (Option String) :=
  (parseColumn c).map (getFieldN e)

/-- Overwrite the cell of a named schema column of a nullable row. -/
def setColN (e : EntryN) (c : String) (v : String) : Option EntryN :=
  (parseColumn c).map (fun f => setFieldN e f v)

/-- Attach the canonical index labels `k, k+1, ...` to the rows of a register,
viewing each as a nullable row. -/
def labelRows (k : Int) : List Entry → List (Int × EntryN)
  | [] => []
  | e :: es => (k, entryToN e) :: labelRows (k + 1) es

/-- The in-place write `df.loc[pos, c] = v` for a position `pos` whose label
exists: overwrite that one cell, leave every other row untouched. -/
def setCellAt (c v : String) : Nat → List Entry → List Entry
  | _, [] => []
  | 0, e :: es => (setCol e c v).getD e :: es
  | n + 1, e :: es => e :: setCellAt c v n es

/-- `FHA_Model.update_cell` (`src/fha_api.py` lines 46-49): raise (before any
write, so the frame is untouched on failure) when `row_index >= len(df)` or
the column name is outside the schema; otherwise `df.loc[row_index,
column_name] = new_value`.  For `0 ≤ row_index < len` the label exists and the
single cell is overwritten in place; for a negative `row_index` the label is
absent and pandas `.loc` enlarges the frame instead: a new row labelled
`row_index` is appended whose only non-`NaN` cell is the written column. -/
def update_cell (reg : List Entry) (rowIdx : Int) (colName : String)
    (v : String) : Except String (List (Int × EntryN)) :=
  if (reg.length : Int) ≤ rowIdx ∨ ¬ TABLE_COLUMNS.contains colName then
    .error "行或列的索引/名称超出了范围。"
  else if 0 ≤ rowIdx then
    .ok (labelRows 0 (setCellAt colName v rowIdx.toNat reg))
  else
    .ok (labelRows 0 reg ++ [(rowIdx, (setColN blankN colName v).getD blankN)])

/-- The "analyzed" row filter of the dashboard:
`df[(df['一级功能'] != '') & (df['危害性分类'] != '')]`
(`src/fha_api.py` line 277, `src/fha_api_new/fha_api0.py` line 329). -/
def analyzed (reg : List Entry) : List Entry :=
  reg.filter (fun e => !(e.funcL1 == "") && !(e.hazardCategory == ""))

/-- The sunburst row filter:
`df[(df['一级功能'] != '') & (df['危害性分类'] != '') & (df['危害性分类'] != '无安全影响 (No Safety Effect)')]`
(`src/fha_api.py` lines 299-300, `src/fha_api_new/fha_api0.py` lines 297-299). -/
def qualified (reg : List Entry) : List Entry :=
  reg.filter (fun e =>
    !(e.funcL1 == "") && !(e.hazardCategory == "") &&
      !(e.hazardCategory == "无安全影响 (No Safety Effect)"))

/-- Strict code-point lexicographic order on character lists — the string
order Python/pandas uses when sorting group keys. -/
def charsLt : List Char → List Char → Bool
  | [], [] => false
  | [], _ :: _ => true
  | _ :: _, [] => false
  | a :: as, b :: bs =>
    if a.toNat < b.toNat then true
    else if b.toNat < a.toNat then false
    else charsLt as bs

/-- Strict code-point lexicographic order on strings. -/
def strLt (a b : String) : Bool := charsLt a.data b.data

theorem charsLt_trans (as : List Char) : ∀ bs cs, charsLt as bs = true →
    charsLt bs cs = true → charsLt as cs = true := by
  induction as with
  | nil =>
    intro bs cs h1 h2
    cases bs with
    | nil => simp [charsLt] at h1
    | cons b bs =>
      cases cs with
      | nil => simp [charsLt] at h2
      | cons c cs => simp [charsLt]
  | cons a as ih =>
    intro bs cs h1 h2
    cases bs with
    | nil => simp [charsLt] at h1
    | cons b bs =>
      cases cs with
      | nil => simp [charsLt] at h2
      | cons c cs =>
        by_cases hab : a.toNat < b.toNat
        · by_cases hbc : b.toNat < c.toNat
          · simp [charsLt, lt_trans hab hbc]
          · by_cases hcb : c.toNat < b.toNat
            · simp [charsLt, hbc, hcb] at h2
            · have hac : a.toNat < c.toNat := by omega
              simp [charsLt, hac]
        · by_cases hba : b.toNat < a.toNat
          · simp [charsLt, hab, hba] at h1
          · have h1a : charsLt as bs = true := by simpa [charsLt, hab, hba] using h1
            by_cases hbc : b.toNat < c.toNat
            · have hac : a.toNat < c.toNat := by omega
              simp [charsLt, hac]
            · by_cases hcb : c.toNat < b.toNat
              · simp [charsLt, hbc, hcb] at h2
              · have h2a : charsLt bs cs = true := by simpa [charsLt, hbc, hcb] using h2
                have hac : ¬ a.toNat < c.toNat := by omega
                have hca : ¬ c.toNat < a.toNat := by omega
                simp [charsLt, hac, hca, ih bs cs h1a h2a]

theorem charsLt_total (as : List Char) : ∀ bs, as ≠ bs → charsLt as bs = false →
    charsLt bs as = true := by
  induction as with
  | nil =>
    intro bs hne hf
    cases bs with
    | nil => exact absurd rfl hne
    | cons b bs => simp [charsLt] at hf
  | cons a as ih =>
    intro bs hne hf
    cases bs with
    | nil => simp [charsLt]
    | cons b bs =>
      by_cases hab : a.toNat < b.toNat
      · simp [charsLt, hab] at hf
      · by_cases hba : b.toNat < a.toNat
        · simp [charsLt, hba]
        · have hcc : a = b := Char.ext (UInt32.ext (show a.toNat = b.toNat by omega))
          subst hcc
          have hne2 : as ≠ bs := fun hh => hne (by rw [hh])
          have hf2 : charsLt as bs = false := by simpa [charsLt, hab, hba] using hf
          simpa [charsLt, hab, hba] using ih bs hne2 hf2

theorem strLt_trans (a b c : String) (h1 : strLt a b = true) (h2 : strLt b c = true) :
    strLt a c = true :=
  charsLt_trans a.data b.data c.data h1 h2

theorem strLt_total (a b : String) (hne : a ≠ b) (hf : strLt a b = false) :
    strLt b a = true :=
  charsLt_total a.data b.data (fun hh => hne (String.ext hh)) hf

/-- Insert a string into a strictly ascending list, keeping it strictly
ascending (duplicates collapse). -/
def insertSorted (x : String) : List String → List String
  | [] => [x]
  | y :: ys =>
    if x = y then y :: ys
    else if strLt x y then x :: y :: ys
    else y :: insertSorted x ys

/-- The distinct values of a list in ascending lexicographic order: the group
keys produced by a pandas `groupby` / the row index of `pd.crosstab`, which
sort keys ascending by default. -/
def sortedDistinct (l : List String) : List String :=
  l.foldl (fun acc x => insertSorted x acc) []

theorem mem_insertSorted (a x : String) (l : List String) :
    a ∈ insertSorted x l ↔ a = x ∨ a ∈ l := by
  induction l with
  | nil => simp [insertSorted]
  | cons y ys ih =>
    by_cases h1 : x = y
    · subst h1
      simp [insertSorted]
    · by_cases h2 : strLt x y = true
      · simp only [insertSorted, if_neg h1, if_pos h2, List.mem_cons]
      · simp only [insertSorted, if_neg h1, if_neg h2, List.mem_cons, ih]
        tauto

theorem pairwise_insertSorted (x : String) (l : List String)
    (h : l.Pairwise (fun a b => strLt a b = true)) :
    (insertSorted x l).Pairwise (fun a b => strLt a b = true) := by
  induction l with
  | nil => simp [insertSorted]
  | cons y ys ih =>
    rcases List.pairwise_cons.mp h with ⟨hy, hys⟩
    by_cases h1 : x = y
    · subst h1; simpa [insertSorted] using h
    · by_cases h2 : strLt x y = true
      · rw [show insertSorted x (y :: ys) = x :: y :: ys by
          simp only [insertSorted, if_neg h1, if_pos h2]]
        refine List.pairwise_cons.mpr ⟨?_, h⟩
        intro b hb
        rcases List.mem_cons.mp hb with rfl | hb'
        · exact h2
        · exact strLt_trans x y b h2 (hy b hb')
      · have hyx : strLt y x = true :=
          strLt_total x y h1 (Bool.not_eq_true _ ▸ eq_false_of_ne_true h2)
        rw [show insertSorted x (y :: ys) = y :: insertSorted x ys by
          simp only [insertSorted, if_neg h1, if_neg h2]]
        refine List.pairwise_cons.mpr ⟨?_, ih hys⟩
        intro b hb
        rcases (mem_insertSorted b x ys).mp hb with rfl | hb'
        · exact hyx
        · exact hy b hb'

theorem mem_foldl_insertSorted (a : String) (l acc : List String) :
    a ∈ l.foldl (fun acc x => insertSorted x acc) acc ↔ a ∈ l ∨ a ∈ acc := by
  induction l generalizing acc with
  | nil => simp
  | cons x xs ih =>
    simp only [List.foldl_cons, ih, mem_insertSorted, List.mem_cons]
    tauto

theorem pairwise_foldl_insertSorted (l acc : List String)
    (h : acc.Pairwise (fun a b => strLt a b = true)) :
    (l.foldl (fun acc x => insertSorted x acc) acc).Pairwise
      (fun a b => strLt a b = true) := by
  induction l generalizing acc with
  | nil => simpa using h
  | cons x xs ih => exact ih _ (pairwise_insertSorted x acc h)

theorem mem_sortedDistinct (a : String) (l : List String) :
    a ∈ sortedDistinct l ↔ a ∈ l := by
  simpa using mem_foldl_insertSorted a l []

theorem pairwise_sortedDistinct (l : List String) :
    (sortedDistinct l).Pairwise (fun a b => strLt a b = true) :=
  pairwise_foldl_insertSorted l [] (by simp)

/-- The row index of the cross-tabulation:
`pd.crosstab(df_analyzed['一级功能'], df_analyzed['危害性分类']).index`, the
distinct top-level function names of the analyzed rows in ascending order
(`src/fha_api.py` line 280, `src/fha_api_new/fha_api0.py` line 335). -/
def cross_index (reg : List Entry) : List String :=
  sortedDistinct ((analyzed reg).map (·.funcL1))

/-- The ordered column list of the cross-tabulation:
`[col for col in ARP4761_CATEGORIES if col in cross_tab.columns and col != ""]`
followed by `cross_tab.reindex(columns=ordered_cols)`
(`src/fha_api.py` lines 281-282, `src/fha_api_new/fha_api0.py` lines
336-337): the canonical severity list restricted to the categories occurring
in the analyzed rows, the empty category excluded.  (The endpoints afterwards
abbreviate each column label to its first space-separated token for display;
the matrix columns themselves are these full labels.) -/
def cross_columns (reg : List Entry) : List String :=
  ARP4761_CATEGORIES.filter
    (fun c => ((analyzed reg).map (·.hazardCategory)).contains c && !(c == ""))

/-- One cell of the cross-tabulation: the number of analyzed rows with the
given (top-level function, severity category) pair — `pd.crosstab` counts
co-occurrences and fills absent combinations with 0. -/
def cross_cell (reg : List Entry) (f c : String) : Nat :=
  (analyzed reg).countP (fun e => e.funcL1 == f && e.hazardCategory == c)

/-- The KPI record of the dashboard. -/
structure Kpis where
  total_items : Nat
  catastrophic_count : Nat
  hazardous_count : Nat
deriving DecidableEq, Repr

/-- `get_dashboard_kpis` (`src/fha_api_new/fha_api0.py` lines 276-288), and
equally the `kpis` dict of `get_dashboard_data` (`src/fha_api.py` lines
272-276): `total_items = len(df[df['失效状态'] != ''])`, and the catastrophic
and hazardous counts are `df['危害性分类'].value_counts().get(label, 0)` for
the two canonical labels, i.e. the number of rows whose category cell equals
the label exactly. -/
def get_dashboard_kpis (reg : List Entry) : Kpis :=
  { total_items := reg.countP (fun e => !(e.failureState == ""))
    catastrophic_count := reg.countP (fun e => e.hazardCategory == "灾难的 (Catastrophic)")
    hazardous_count := reg.countP (fun e => e.hazardCategory == "危险的 (Hazardous)") }

/-- The KPI portion of `get_dashboard_data` (`src/fha_api.py` lines 267-276):
on an empty register the endpoint returns the bare message payload
`{"message": "无数据可供分析"}` (modelled as `none`) instead of a KPI record;
otherwise the same KPI record as `get_dashboard_kpis`. -/
def get_dashboard_data_kpis (reg : List Entry) : Option Kpis :=
  if reg.isEmpty then none else some (get_dashboard_kpis reg)

/-- The children of one sunburst function node: the severity categories
present for that function among the qualified rows, in the ascending order
produced by `groupby(['一级功能', '危害性分类']).size()`, each with its
occurrence count (`src/fha_api.py` lines 302-308). -/
def sunburst_children (reg : List Entry) (f : String) : List (String × Nat) :=
  (sortedDistinct (((qualified reg).filter (fun e => e.funcL1 == f)).map (·.hazardCategory))).map
    (fun c => (c, (qualified reg).countP (fun e => e.funcL1 == f && e.hazardCategory == c)))

/-- The sunburst structure of `get_dashboard_data` (`src/fha_api.py` lines
298-308): `none` models the empty dict `{}` emitted when no row passes the
filter; otherwise one node per distinct function name of the qualified rows —
in the ascending group-key order of `data.groupby('一级功能')` — with its
severity leaves. -/
def sunburst_data (reg : List Entry) :
    Option (List (String × List (String × Nat))) :=
  if (qualified reg).isEmpty then none
  else some ((sortedDistinct ((qualified reg).map (·.funcL1))).map
    (fun f => (f, sunburst_children reg f)))

/-- Modelled from the spec: the node order the spec asserts for
`hierarchicalBreakdown()` — "for each distinct function name (in
first-seen-per-group order)" — i.e. each distinct value at the position of its
first occurrence. -/
def dedupKeepFirst (l : List String) : List String :=
  l.foldl (fun acc x => if acc.contains x then acc else acc ++ [x]) []

theorem length_setCellAt (c v : String) (pos : Nat) (l : List Entry) :
    (setCellAt c v pos l).length = l.length := by
  induction l generalizing pos with
  | nil => cases pos <;> rfl
  | cons e es ih =>
    cases pos with
    | zero => simp [setCellAt]
    | succ n => simp [setCellAt, ih]

theorem get_setCellAt_ne (c v : String) (pos : Nat) (l : List Entry) (j : Nat)
    (h : j < (setCellAt c v pos l).length) (h' : j < l.length) (hne : j ≠ pos) :
    (setCellAt c v pos l).get ⟨j, h⟩ = l.get ⟨j, h'⟩ := by
  induction l generalizing pos j with
  | nil => exact absurd h' (by simp)
  | cons e es ih =>
    cases pos with
    | zero =>
      cases j with
      | zero => exact absurd rfl hne
      | succ m => simp [setCellAt]
    | succ n =>
      cases j with
      | zero => simp [setCellAt]
      | succ m =>
        have hm : m < es.length := by simpa using h'
        have := ih n m (by simpa [setCellAt, length_setCellAt] using h) hm
          (fun hc => hne (by simpa using congrArg Nat.succ hc))
        simpa [setCellAt] using this

theorem get_setCellAt_eq (c v : String) (pos : Nat) (l : List Entry)
    (h : pos < (setCellAt c v pos l).length) (h' : pos < l.length) :
    (setCellAt c v pos l).get ⟨pos, h⟩ = (setCol (l.get ⟨pos, h'⟩) c v).getD (l.get ⟨pos, h'⟩) := by
  induction l generalizing pos with
  | nil => exact absurd h' (by simp)
  | cons e es ih =>
    cases pos with
    | zero => simp [setCellAt]
    | succ n =>
      have hn : n < es.length := by simpa using h'
      have := ih n (by simpa [setCellAt, length_setCellAt] using h) hn
      simpa [setCellAt] using this

theorem length_labelRows (k : Int) (l : List Entry) :
    (labelRows k l).length = l.length := by
  induction l generalizing k with
  | nil => rfl
  | cons e es ih => simp [labelRows, ih]

theorem get_labelRows (k : Int) (l : List Entry) (j : Nat)
    (h : j < (labelRows k l).length) (h' : j < l.length) :
    (labelRows k l).get ⟨j, h⟩ = (k + (j : Int), entryToN (l.get ⟨j, h'⟩)) := by
  induction l generalizing k j with
  | nil => exact absurd h' (by simp)
  | cons e es ih =>
    cases j with
    | zero => simp [labelRows]
    | succ m =>
      have hm : m < es.length := by simpa using h'
      have := ih (k + 1) m (by simpa [labelRows, length_labelRows] using h) hm
      rw [show (labelRows k (e :: es)).get ⟨m + 1, h⟩ =
        (labelRows (k + 1) es).get ⟨m, by simpa [labelRows, length_labelRows] using h⟩ from rfl]
      rw [this]
      congr 1
      omega

theorem parseColumn_colName (f : Field) : parseColumn (colName f) = some f := by
  cases f <;> rfl

set_option maxHeartbeats 2000000 in
theorem colName_parseColumn (c : String) (f : Field) (h : parseColumn c = some f) :
    colName f = c := by
  unfold parseColumn at h
  split_ifs at h with h1 h2 h3 h4 h5 h6 h7 h8 h9 h10 h11 h12
  · injection h with hf; subst hf; exact h1.symm
  · injection h with hf; subst hf; exact h2.symm
  · injection h with hf; subst hf; exact h3.symm
  · injection h with hf; subst hf; exact h4.symm
  · injection h with hf; subst hf; exact h5.symm
  · injection h with hf; subst hf; exact h6.symm
  · injection h with hf; subst hf; exact h7.symm
  · injection h with hf; subst hf; exact h8.symm
  · injection h with hf; subst hf; exact h9.symm
  · injection h with hf; subst hf; exact h10.symm
  · injection h with hf; subst hf; exact h11.symm
  · injection h with hf; subst hf; exact h12.symm

theorem mem_TABLE_COLUMNS_iff (c : String) :
    c ∈ TABLE_COLUMNS ↔ (parseColumn c).isSome := by
  constructor
  · intro h
    simp only [TABLE_COLUMNS, List.mem_cons, List.mem_singleton] at h
    rcases h with rfl | rfl | rfl | rfl | rfl | rfl | rfl | rfl | rfl | rfl | rfl | rfl | h
    all_goals first | rfl | exact absurd h (by simp)
  · intro h
    match hp : parseColumn c with
    | none => rw [hp] at h; exact absurd h (by simp)
    | some f =>
      rw [← colName_parseColumn c f hp]
      cases f <;> simp [colName, TABLE_COLUMNS]

theorem getField_setField_self (e : Entry) (f : Field) (v : String) :
    getField (setField e f v) f = v := by
  cases f <;> rfl

theorem getField_setField_ne (e : Entry) (f f' : Field) (v : String) (h : f' ≠ f) :
    getField (setField e f v) f' = getField e f' := by
  cases f <;> cases f' <;> first | rfl | exact absurd rfl h

theorem getFieldN_setFieldN_self (e : EntryN) (f : Field) (v : String) :
    getFieldN (setFieldN e f v) f = some v := by
  cases f <;> rfl

theorem getFieldN_setFieldN_ne (e : EntryN) (f f' : Field) (v : String) (h : f' ≠ f) :
    getFieldN (setFieldN e f v) f' = getFieldN e f' := by
  cases f <;> cases f' <;> first | rfl | exact absurd rfl h

theorem getFieldN_entryToN (e : Entry) (f : Field) :
    getFieldN (entryToN e) f = some (getField e f) := by
  cases f <;> rfl

theorem getColN_entryToN (e : Entry) (c : String) :
    getColN (entryToN e) c = (getCol e c).map some := by
  unfold getColN getCol
  cases parseColumn c with
  | none => rfl
  | some f => simp [getFieldN_entryToN]

theorem getCol_setCol_self (e : Entry) (c v : String) (h : c ∈ TABLE_COLUMNS) :
    getCol ((setCol e c v).getD e) c = some v := by
  rw [mem_TABLE_COLUMNS_iff] at h
  match hp : parseColumn c with
  | none => rw [hp] at h; exact absurd h (by simp)
  | some f =>
    unfold getCol setCol
    rw [hp]
    simp [getField_setField_self]

theorem getCol_setCol_ne (e : Entry) (c c' v : String) (h : c' ≠ c) :
    getCol ((setCol e c v).getD e) c' = getCol e c' := by
  unfold getCol setCol
  match hp : parseColumn c with
  | none => simp
  | some f =>
    match hp' : parseColumn c' with
    | none => simp
    | some f' =>
      have hff : f' ≠ f := by
        intro hc
        subst hc
        exact h ((colName_parseColumn c' f' hp').symm.trans (colName_parseColumn c f' hp))
      simp [getField_setField_ne e f f' v hff]

theorem getColN_setColN_blankN_self (c v : String) (h : c ∈ TABLE_COLUMNS) :
    getColN ((setColN blankN c v).getD blankN) c = some (some v) := by
  rw [mem_TABLE_COLUMNS_iff] at h
  match hp : parseColumn c with
  | none => rw [hp] at h; exact absurd h (by simp)
  | some f =>
    unfold getColN setColN
    rw [hp]
    simp [getFieldN_setFieldN_self]

theorem getFieldN_blankN (f : Field) : getFieldN blankN f = none := by
  cases f <;> rfl

theorem getColN_setColN_blankN_ne (c c' v : String) (h : c' ∈ TABLE_COLUMNS) (hne : c' ≠ c) :
    getColN ((setColN blankN c v).getD blankN) c' = some none := by
  rw [mem_TABLE_COLUMNS_iff] at h
  match hp' : parseColumn c' with
  | none => rw [hp'] at h; exact absurd h (by simp)
  | some f' =>
    unfold getColN setColN
    match hp : parseColumn c with
    | none => simp [hp', getFieldN_blankN]
    | some f =>
      have hff : f' ≠ f := by
        intro hc
        subst hc
        exact hne ((colName_parseColumn c' f' hp').symm.trans (colName_parseColumn c f' hp))
      simp [hp', getFieldN_setFieldN_ne blankN f f' v hff, getFieldN_blankN]

/-! ## Claim theorems -/

/-- C10: for every register and every `source_index` — negative values and
values at or beyond the register length included — wizard expansion with an
empty results list raises no error and leaves the register exactly unchanged:
the empty-results guard returns before the source row is ever read. -/
theorem c10_wizard_empty_results_is_noop (reg : List Entry) (sourceIdx : Int) :
    update_fha_entries_from_wizard reg sourceIdx [] = Except.ok reg := rfl

/-- C3: `update_cell(position, fieldName, value)` with a (0-based, hence
non-negative) position fails exactly when the position is at or beyond the
current length or the field name is outside the fixed schema; the check
precedes the write, so on failure no state is produced (check-then-act); on
success the result keeps the canonical labels, every row other than the
addressed one is unchanged, and in the addressed row exactly the addressed
column holds the new value while every other schema column is unchanged — in
particular no renumbering is triggered. -/
theorem c3_update_cell_check_then_act (reg : List Entry) (pos : Nat) (c v : String) :
    ((update_cell reg (pos : Int) c v).toOption = none ↔
      reg.length ≤ pos ∨ c ∉ TABLE_COLUMNS)
    ∧ (∀ (hpos : pos < reg.length), c ∈ TABLE_COLUMNS →
        ∃ out, update_cell reg (pos : Int) c v = Except.ok out
          ∧ out.length = reg.length
          ∧ (∀ j, (hj : j < out.length) → (hj' : j < reg.length) →
              (out.get ⟨j, hj⟩).1 = (j : Int)
              ∧ (j ≠ pos → (out.get ⟨j, hj⟩).2 = entryToN (reg.get ⟨j, hj'⟩)))
          ∧ ∀ (hp : pos < out.length),
              getColN (out.get ⟨pos, hp⟩).2 c = some (some v)
              ∧ ∀ c', c' ∈ TABLE_COLUMNS → c' ≠ c →
                  getColN (out.get ⟨pos, hp⟩).2 c' =
                    (getCol (reg.get ⟨pos, hpos⟩) c').map some) := by
  have hcc : TABLE_COLUMNS.contains c ↔ c ∈ TABLE_COLUMNS := List.elem_iff
  constructor
  · by_cases hP : reg.length ≤ pos ∨ c ∉ TABLE_COLUMNS
    · have hguard : ((reg.length : Int) ≤ (pos : Int)) ∨ ¬ TABLE_COLUMNS.contains c := by
        rcases hP with h | h
        · exact Or.inl (by exact_mod_cast h)
        · exact Or.inr (fun hb => h (hcc.mp hb))
      unfold update_cell
      rw [if_pos hguard]
      simp only [Except.toOption]
      exact iff_of_true trivial hP
    · push_neg at hP
      have hguard : ¬ (((reg.length : Int) ≤ (pos : Int)) ∨ ¬ TABLE_COLUMNS.contains c) := by
        push_neg
        exact ⟨by exact_mod_cast hP.1, hcc.mpr hP.2⟩
      unfold update_cell
      rw [if_neg hguard, if_pos (Int.ofNat_nonneg pos)]
      simp only [Except.toOption]
      exact iff_of_false (by simp) (not_or.mpr ⟨by omega, not_not.mpr hP.2⟩)
  · intro hpos hc
    have hguard : ¬ (((reg.length : Int) ≤ (pos : Int)) ∨ ¬ TABLE_COLUMNS.contains c) := by
      push_neg
      exact ⟨by exact_mod_cast hpos, hcc.mpr hc⟩
    refine ⟨labelRows 0 (setCellAt c v pos reg), ?_, ?_, ?_, ?_⟩
    · unfold update_cell
      rw [if_neg hguard, if_pos (Int.ofNat_nonneg pos), Int.toNat_natCast]
    · rw [length_labelRows, length_setCellAt]
    · intro j hj hj'
      have hjs : j < (setCellAt c v pos reg).length := by
        rw [length_setCellAt]; exact hj'
      have hlbl := get_labelRows 0 (setCellAt c v pos reg) j hj hjs
      constructor
      · rw [hlbl]; simp
      · intro hne
        rw [hlbl]
        show entryToN ((setCellAt c v pos reg).get ⟨j, hjs⟩) = entryToN (reg.get ⟨j, hj'⟩)
        rw [get_setCellAt_ne c v pos reg j hjs hj' hne]
    · intro hp
      have hps : pos < (setCellAt c v pos reg).length := by
        rw [length_setCellAt]; exact hpos
      have hlbl := get_labelRows 0 (setCellAt c v pos reg) pos hp hps
      have hcell := get_setCellAt_eq c v pos reg hps hpos
      constructor
      · rw [hlbl]
        show getColN (entryToN ((setCellAt c v pos reg).get ⟨pos, hps⟩)) c = some (some v)
        rw [hcell, getColN_entryToN, getCol_setCol_self _ _ _ hc]
        rfl
      · intro c' _ hne
        rw [hlbl]
        show getColN (entryToN ((setCellAt c v pos reg).get ⟨pos, hps⟩)) c' =
          (getCol (reg.get ⟨pos, hpos⟩) c').map some
        rw [hcell, getColN_entryToN, getCol_setCol_ne _ _ _ _ hne]

/-- Witness for C3 at a concrete input: a one-row register, position 0 and the
schema column `失效状态`. -/
theorem c3_update_cell_check_then_act_witness :
    ((update_cell [fromRow []] ((0 : Nat) : Int) "失效状态" "x").toOption = none ↔
      [fromRow []].length ≤ 0 ∨ "失效状态" ∉ TABLE_COLUMNS)
    ∧ ∃ out, update_cell [fromRow []] ((0 : Nat) : Int) "失效状态" "x" = Except.ok out :=
  ⟨(c3_update_cell_check_then_act [fromRow []] 0 "失效状态" "x").1,
   match (c3_update_cell_check_then_act [fromRow []] 0 "失效状态" "x").2
       (by decide) (by decide) with
   | ⟨out, hout, _⟩ => ⟨out, hout⟩⟩

/-- C9: for every register, every schema column name and every negative
position, `update_cell` raises no error; pandas `.loc` enlarges the frame
instead of writing in place: the result has one more row, every previously
existing row is unchanged under its canonical label, and the appended row is
labelled by the negative position and holds the written value in the
addressed column with every other schema column unset (`NaN`). -/
theorem c9_update_cell_negative_enlarges (reg : List Entry) (i : Int) (c v : String)
    (hneg : i < 0) (hc : c ∈ TABLE_COLUMNS) :
    ∃ out, update_cell reg i c v = Except.ok out
      ∧ out.length = reg.length + 1
      ∧ (∀ j, (hj : j < out.length) → (hj' : j < reg.length) →
          out.get ⟨j, hj⟩ = ((j : Int), entryToN (reg.get ⟨j, hj'⟩)))
      ∧ ∀ (hl : reg.length < out.length),
          (out.get ⟨reg.length, hl⟩).1 = i
          ∧ getColN (out.get ⟨reg.length, hl⟩).2 c = some (some v)
          ∧ ∀ c', c' ∈ TABLE_COLUMNS → c' ≠ c →
              getColN (out.get ⟨reg.length, hl⟩).2 c' = some none := by
  have hguard : ¬ (((reg.length : Int) ≤ i) ∨ ¬ TABLE_COLUMNS.contains c) := by
    push_neg
    refine ⟨lt_of_lt_of_le hneg (by exact_mod_cast Nat.zero_le reg.length), ?_⟩
    exact List.elem_iff.mpr hc
  refine ⟨labelRows 0 reg ++ [(i, (setColN blankN c v).getD blankN)], ?_, ?_, ?_, ?_⟩
  · unfold update_cell
    rw [if_neg hguard, if_neg (not_le.mpr hneg)]
  · simp [length_labelRows]
  · intro j hj hj'
    have hjl : j < (labelRows 0 reg).length := by
      rw [length_labelRows]; exact hj'
    have : (labelRows 0 reg ++ [(i, (setColN blankN c v).getD blankN)]).get ⟨j, hj⟩ =
        (labelRows 0 reg).get ⟨j, hjl⟩ := by
      simp only [List.get_eq_getElem, Fin.val_mk]
      exact List.getElem_append_left hjl
    rw [this, get_labelRows 0 reg j hjl hj']
    simp
  · intro hl
    have hlen : (labelRows 0 reg).length = reg.length := length_labelRows 0 reg
    have hgl : (labelRows 0 reg ++ [(i, (setColN blankN c v).getD blankN)]).get ⟨reg.length, hl⟩ =
        (i, (setColN blankN c v).getD blankN) := by
      simp only [List.get_eq_getElem, Fin.val_mk]
      rw [List.getElem_append_right (by omega)]
      simp [hlen]
    rw [hgl]
    exact ⟨rfl, getColN_setColN_blankN_self c v hc,
      fun c' hm hne => getColN_setColN_blankN_ne c c' v hm hne⟩

/-- Witness for C9 at a concrete input: a one-row register, position `-1` and
the schema column `理由/备注`. -/
theorem c9_update_cell_negative_enlarges_witness :
    ∃ out, update_cell [fromRow []] (-1) "理由/备注" "y" = Except.ok out ∧
      out.length = [fromRow []].length + 1 :=
  match c9_update_cell_negative_enlarges [fromRow []] (-1) "理由/备注" "y"
      (by decide) (by decide) with
  | ⟨out, hout, hlen, _⟩ => ⟨out, hout, hlen⟩

theorem getField_updateRow (src : Entry) (r : RawRow) (f : Field) :
    getField (updateRow src r) f = (List.lookup (colName f) r).getD (getField src f) := by
  cases f <;> rfl

theorem wizard_ok (reg : List Entry) (i : Nat) (results : List RawRow)
    (hi : i < reg.length) (hres : results ≠ []) :
    update_fha_entries_from_wizard reg (i : Int) results =
      Except.ok (re_number_ids
        (reg.take i ++ results.map (fun q => updateRow (reg.get ⟨i, hi⟩) q) ++
          reg.drop (i + 1))) := by
  unfold update_fha_entries_from_wizard
  have h1 : results.isEmpty = false := by simpa [List.isEmpty_iff] using hres
  have h2 : 0 ≤ (i : Int) ∧ (i : Int) < (reg.length : Int) :=
    ⟨Int.ofNat_nonneg i, by exact_mod_cast hi⟩
  rw [h1]
  simp only [Bool.false_eq_true, if_false]
  rw [dif_pos h2]
  simp only [Int.toNat_natCast]

theorem eraseId_get_re_number (L : List Entry) (m : Nat)
    (h1 : m < (re_number_ids L).length) (h2 : m < L.length) :
    eraseId ((re_number_ids L).get ⟨m, h1⟩) = eraseId (L.get ⟨m, h2⟩) := by
  have hg := get_reNumberFrom 0 L m h1 h2
  show eraseId ((reNumberFrom 0 L).get ⟨m, h1⟩) = eraseId (L.get ⟨m, h2⟩)
  rw [hg]
  rfl

/-- C8: each derived entry built by wizard expansion is the source row with
the override applied on top: every schema field named by the override carries
the override's value, every schema field missing from the override carries
the source row's value at call time; the derived block spliced into the
register is exactly the list of these entries. -/
theorem c8_wizard_override_inheritance (reg : List Entry) (i : Nat)
    (results : List RawRow) (hi : i < reg.length) (hres : results ≠ [])
    (r : RawRow) (hr : r ∈ results) (c : String) (hc : c ∈ TABLE_COLUMNS) :
    update_fha_entries_from_wizard reg (i : Int) results =
      Except.ok (re_number_ids
        (reg.take i ++ results.map (fun q => updateRow (reg.get ⟨i, hi⟩) q) ++
          reg.drop (i + 1)))
    ∧ (List.lookup c r = none →
        getCol (updateRow (reg.get ⟨i, hi⟩) r) c = getCol (reg.get ⟨i, hi⟩) c)
    ∧ ∀ v, List.lookup c r = some v →
        getCol (updateRow (reg.get ⟨i, hi⟩) r) c = some v := by
  have hsome : (parseColumn c).isSome := (mem_TABLE_COLUMNS_iff c).mp hc
  refine ⟨wizard_ok reg i results hi hres, ?_, ?_⟩
  · intro hnone
    match hp : parseColumn c with
    | none => rw [hp] at hsome; exact absurd hsome (by simp)
    | some f =>
      have hcol : colName f = c := colName_parseColumn c f hp
      unfold getCol
      rw [hp]
      show some (getField (updateRow (reg.get ⟨i, hi⟩) r) f) =
        some (getField (reg.get ⟨i, hi⟩) f)
      rw [getField_updateRow, hcol, hnone]
      rfl
  · intro v hv
    match hp : parseColumn c with
    | none => rw [hp] at hsome; exact absurd hsome (by simp)
    | some f =>
      have hcol : colName f = c := colName_parseColumn c f hp
      unfold getCol
      rw [hp]
      show some (getField (updateRow (reg.get ⟨i, hi⟩) r) f) = some v
      rw [getField_updateRow, hcol, hv]
      rfl

/-- Witness for C8 at a concrete input: a one-row register whose row has a
non-empty rationale, one override that sets `失效状态` but not `理由/备注`. -/
theorem c8_wizard_override_inheritance_witness :
    (List.lookup "理由/备注" [("失效状态", "功能完全丧失")] = none →
      getCol (updateRow ([fromRow [("理由/备注", "r1")]].get ⟨0, by decide⟩)
          [("失效状态", "功能完全丧失")]) "理由/备注" =
        getCol ([fromRow [("理由/备注", "r1")]].get ⟨0, by decide⟩) "理由/备注")
    ∧ ∀ v, List.lookup "失效状态" [("失效状态", "功能完全丧失")] = some v →
        getCol (updateRow ([fromRow [("理由/备注", "r1")]].get ⟨0, by decide⟩)
          [("失效状态", "功能完全丧失")]) "失效状态" = some v :=
  ⟨(c8_wizard_override_inheritance [fromRow [("理由/备注", "r1")]] 0
      [[("失效状态", "功能完全丧失")]] (by decide) (by decide)
      [("失效状态", "功能完全丧失")] (by decide) "理由/备注" (by decide)).2.1,
   (c8_wizard_override_inheritance [fromRow [("理由/备注", "r1")]] 0
      [[("失效状态", "功能完全丧失")]] (by decide) (by decide)
      [("失效状态", "功能完全丧失")] (by decide) "失效状态" (by decide)).2.2⟩

/-- C2: for an in-range source position and a non-empty override list, wizard
expansion yields `before ++ derivedEntries ++ after` (then renumbered): the
new length is the old length minus one plus the number of overrides, every
row before the source position is unchanged apart from its identifier, and
every row after the spliced block equals the corresponding pre-expansion row
(shifted by `|results| - 1`) apart from its identifier; relative order is
preserved. -/
theorem c2_wizard_splice_structure (reg : List Entry) (i : Nat)
    (results : List RawRow) (hi : i < reg.length) (hres : results ≠ []) :
    ∃ out, update_fha_entries_from_wizard reg (i : Int) results = Except.ok out
      ∧ out = re_number_ids
          (reg.take i ++ results.map (fun q => updateRow (reg.get ⟨i, hi⟩) q) ++
            reg.drop (i + 1))
      ∧ out.length = reg.length - 1 + results.length
      ∧ (∀ j, j < i → ∀ (h1 : j < out.length) (h2 : j < reg.length),
          eraseId (out.get ⟨j, h1⟩) = eraseId (reg.get ⟨j, h2⟩))
      ∧ (∀ j, ∀ (h1 : i + results.length + j < out.length)
            (h2 : i + 1 + j < reg.length),
          eraseId (out.get ⟨i + results.length + j, h1⟩) =
            eraseId (reg.get ⟨i + 1 + j, h2⟩)) := by
  set mid := results.map (fun q => updateRow (reg.get ⟨i, hi⟩) q) with hmid
  set L := reg.take i ++ mid ++ reg.drop (i + 1) with hL
  have hLlen : L.length = reg.length - 1 + results.length := by
    rw [hL]
    simp only [List.length_append, List.length_take, List.length_drop, hmid,
      List.length_map]
    omega
  refine ⟨re_number_ids L, wizard_ok reg i results hi hres, rfl, ?_, ?_, ?_⟩
  · rw [length_re_number_ids, hLlen]
  · intro j hj h1 h2
    have h1L : j < L.length := by rwa [length_re_number_ids] at h1
    rw [eraseId_get_re_number L j h1 h1L]
    congr 1
    simp only [List.get_eq_getElem, Fin.val_mk, hL]
    rw [List.getElem_append_left (by simp [List.length_take]; omega)]
    rw [List.getElem_append_left (by simp [List.length_take]; omega)]
    simp [List.getElem_take]
  · intro j h1 h2
    have h1L : i + results.length + j < L.length := by
      rwa [length_re_number_ids] at h1
    rw [eraseId_get_re_number L _ h1 h1L]
    congr 1
    simp only [List.get_eq_getElem, Fin.val_mk, hL]
    rw [List.getElem_append_right (by simp [List.length_take, List.length_append, hmid]; omega)]
    rw [List.getElem_drop]
    congr 1
    simp only [List.length_append, List.length_take, hmid, List.length_map]
    omega

/-- Witness for C2 at a concrete input: a three-row register, source position
1, two overrides. -/
theorem c2_wizard_splice_structure_witness :
    ∃ out, update_fha_entries_from_wizard
        [fromRow [("一级功能", "A")], fromRow [("一级功能", "B")], fromRow [("一级功能", "C")]]
        ((1 : Nat) : Int)
        [[("失效状态", "s1")], [("失效状态", "s2")]] = Except.ok out
      ∧ out.length =
          [fromRow [("一级功能", "A")], fromRow [("一级功能", "B")], fromRow [("一级功能", "C")]].length - 1 + 2 :=
  match c2_wizard_splice_structure
      [fromRow [("一级功能", "A")], fromRow [("一级功能", "B")], fromRow [("一级功能", "C")]]
      1 [[("失效状态", "s1")], [("失效状态", "s2")]] (by decide) (by decide) with
  | ⟨out, hout, _, hlen, _, _⟩ => ⟨out, hout, hlen⟩

instance decidableIdsNumbered (l : List Entry) : Decidable (idsNumbered l) :=
  decidable_of_iff (∀ i, (h : i < l.length) → (l.get ⟨i, h⟩).idNo = fhaId i) Iff.rfl

/-- C1 counterexample: the GUI-core variant's `load_dataframe` is a structural
mutation (whole-sequence replacement) after which the identifier invariant
does NOT hold — a loaded row whose `编号` cell is `"XYZ"` keeps it. -/
theorem c1_core_load_keeps_foreign_ids :
    ¬ idsNumbered (core_load_dataframe [[("编号", "XYZ")]]) := by
  intro h
  have h0 := h 0 (by decide)
  exact absurd h0 (by decide)

/-- C1 (amended): after a bulk append of a non-empty batch, a non-trivial
deletion (either variant, when it succeeds), a wizard expansion with a
non-empty result list, and the FastAPI variant's whole-sequence load, every
entry's identifier equals `"FHA-" ++ pad3(position+1)`; the GUI-core
variant's `load_dataframe`, however, keeps the loaded identifier cells as
given (recomputing only its `next_id` counter), so the invariant holds after
load only in the FastAPI variant. -/
theorem c1_ids_renumbered_after_mutations :
    (∀ rows : List RawRow, idsNumbered (api_load_dataframe rows))
    ∧ (∀ (reg : List Entry) (entries : List RawRow), entries ≠ [] →
        idsNumbered (add_fha_entries reg entries))
    ∧ (∀ (reg : List Entry) (idxs : List Int), idxs ≠ [] → reg ≠ [] →
        idsNumbered (api_delete_rows reg idxs))
    ∧ (∀ (reg : List Entry) (idxs : List Int) (out : List Entry),
        core_delete_rows reg idxs = Except.ok out → idxs ≠ [] → idsNumbered out)
    ∧ (∀ (reg : List Entry) (sourceIdx : Int) (results : List RawRow) (out : List Entry),
        update_fha_entries_from_wizard reg sourceIdx results = Except.ok out →
        results ≠ [] → idsNumbered out)
    ∧ (∀ rows : List RawRow, core_load_dataframe rows = rows.map fromRow) := by
  refine ⟨?_, ?_, ?_, ?_, ?_, fun _ => rfl⟩
  · intro rows
    exact idsNumbered_re_number_ids _
  · intro reg entries hne
    have h1 : entries.isEmpty = false := by simpa [List.isEmpty_iff] using hne
    unfold add_fha_entries
    rw [h1]
    simp only [Bool.false_eq_true, if_false]
    exact idsNumbered_re_number_ids _
  · intro reg idxs h1 h2
    have hcond : (idxs.isEmpty || reg.isEmpty) = false := by
      simp [List.isEmpty_iff, h1, h2]
    unfold api_delete_rows
    rw [hcond]
    simp only [Bool.false_eq_true, if_false]
    exact idsNumbered_re_number_ids _
  · intro reg idxs out hok hne
    have h1 : idxs.isEmpty = false := by simpa [List.isEmpty_iff] using hne
    unfold core_delete_rows at hok
    rw [h1] at hok
    simp only [Bool.false_eq_true, if_false] at hok
    by_cases hall : (idxs.all fun j => decide (0 ≤ j) && decide (j < (reg.length : Int))) = true
    · rw [if_pos hall] at hok
      injection hok with hok
      rw [← hok]
      exact idsNumbered_re_number_ids _
    · rw [if_neg hall] at hok
      exact absurd hok (by simp)
  · intro reg sourceIdx results out hok hne
    have h1 : results.isEmpty = false := by simpa [List.isEmpty_iff] using hne
    unfold update_fha_entries_from_wizard at hok
    rw [h1] at hok
    simp only [Bool.false_eq_true, if_false] at hok
    by_cases hin : 0 ≤ sourceIdx ∧ sourceIdx < (reg.length : Int)
    · rw [dif_pos hin] at hok
      injection hok with hok
      rw [← hok]
      exact idsNumbered_re_number_ids _
    · rw [dif_neg hin] at hok
      exact absurd hok (by simp)

/-- Witness for C1 at concrete inputs: a non-empty append onto an empty
register and a one-position deletion from a two-row register. -/
theorem c1_ids_renumbered_after_mutations_witness :
    idsNumbered (add_fha_entries [] [[("一级功能", "F")]])
    ∧ idsNumbered (api_delete_rows [fromRow [], fromRow []] [0]) :=
  ⟨c1_ids_renumbered_after_mutations.2.1 [] [[("一级功能", "F")]] (by decide),
   c1_ids_renumbered_after_mutations.2.2.1 [fromRow [], fromRow []] [0]
     (by decide) (by decide)⟩

/-- A six-row register (identifiers `FHA-001` … `FHA-006`) for the deletion
scenario of the spec. -/
def demoReg6 : List Entry :=
  api_load_dataframe [[("一级功能", "F1")], [("一级功能", "F2")], [("一级功能", "F3")],
    [("一级功能", "F4")], [("一级功能", "F5")], [("一级功能", "F6")]]

/-- C4 counterexample: on a 6-row register the GUI-core variant's
`delete_rows([5,5,99])` raises (`df.drop` fails on the absent label 99)
instead of tolerating the out-of-range position. -/
theorem c4_core_delete_out_of_range_raises :
    (core_delete_rows demoReg6 [5, 5, 99]).toOption = none := by decide

theorem keepNotIn_eq_filter (idxs : List Int) (k : Nat) (l : List Entry) :
    keepNotIn idxs k l =
      ((List.enumFrom k l).filter (fun p => !idxs.contains ((p.1 : Nat) : Int))).map
        Prod.snd := by
  induction l generalizing k with
  | nil => rfl
  | cons e es ih =>
    by_cases hc : (k : Int) ∈ idxs
    · simp [keepNotIn, List.enumFrom, List.filter, hc, ih, List.elem_iff]
    · simp [keepNotIn, List.enumFrom, List.filter, hc, ih, List.elem_iff]

/-- C4 (amended): the FastAPI variant behaves as claimed — the survivors are
exactly the rows whose position is not in the given list (duplicates and
out-of-range positions ignored via set membership), in their original order,
and the result is renumbered; on the 6-row scenario `[5,5,99]` it leaves the
first five rows numbered `FHA-001..FHA-005`.  The GUI-core variant agrees
when every position is in range, but raises on any out-of-range position
(see the counterexample), so out-of-range tolerance holds only in the
FastAPI variant. -/
theorem c4_delete_rows_semantics :
    (∀ (reg : List Entry) (idxs : List Int), idxs ≠ [] → reg ≠ [] →
        (api_delete_rows reg idxs).map eraseId =
          (((List.enumFrom 0 reg).filter
              (fun p => !idxs.contains ((p.1 : Nat) : Int))).map Prod.snd).map eraseId
        ∧ idsNumbered (api_delete_rows reg idxs))
    ∧ (∀ (reg : List Entry) (idxs : List Int), idxs ≠ [] →
        (∀ j ∈ idxs, 0 ≤ j ∧ j < (reg.length : Int)) →
        core_delete_rows reg idxs = Except.ok (re_number_ids (keepNotIn idxs 0 reg)))
    ∧ (api_delete_rows demoReg6 [5, 5, 99]).length = 5
    ∧ idsNumbered (api_delete_rows demoReg6 [5, 5, 99])
    ∧ (api_delete_rows demoReg6 [5, 5, 99]).map eraseId = (demoReg6.take 5).map eraseId := by
  refine ⟨?_, ?_, by decide, by decide, by decide⟩
  · intro reg idxs h1 h2
    have hcond : (idxs.isEmpty || reg.isEmpty) = false := by
      simp [List.isEmpty_iff, h1, h2]
    constructor
    · unfold api_delete_rows
      rw [hcond]
      simp only [Bool.false_eq_true, if_false]
      rw [map_eraseId_re_number_ids, keepNotIn_eq_filter]
    · unfold api_delete_rows
      rw [hcond]
      simp only [Bool.false_eq_true, if_false]
      exact idsNumbered_re_number_ids _
  · intro reg idxs hne hin
    have h1 : idxs.isEmpty = false := by simpa [List.isEmpty_iff] using hne
    have hall : (idxs.all fun j => decide (0 ≤ j) && decide (j < (reg.length : Int))) = true := by
      rw [List.all_eq_true]
      intro j hj
      rcases hin j hj with ⟨ha, hb⟩
      simp [ha, hb]
    unfold core_delete_rows
    rw [h1]
    simp only [Bool.false_eq_true, if_false]
    rw [if_pos hall]

/-- Witness for C4 at a concrete input: deleting position 0 from the 6-row
register, in both variants. -/
theorem c4_delete_rows_semantics_witness :
    idsNumbered (api_delete_rows demoReg6 [0])
    ∧ core_delete_rows demoReg6 [0] = Except.ok (re_number_ids (keepNotIn [0] 0 demoReg6)) :=
  ⟨(c4_delete_rows_semantics.1 demoReg6 [0] (by decide) (by decide)).2,
   c4_delete_rows_semantics.2.1 demoReg6 [0] (by decide) (by decide)⟩

/-- C5 counterexample: on an empty register the combined dashboard endpoint
`get_dashboard_data` does not return an all-zero KPI record — it returns the
bare no-data message payload, a different result shape. -/
theorem c5_empty_dashboard_is_message_payload :
    get_dashboard_data_kpis [] ≠
      some { total_items := 0, catastrophic_count := 0, hazardous_count := 0 } := by
  decide

/-- C5 (amended): on every register the KPI counts are as claimed —
`total_items` counts the entries with a non-empty failure-mode cell and the
catastrophic/hazardous counts the entries whose severity cell equals the
corresponding canonical label exactly; the dedicated KPI endpoint
(`get_dashboard_kpis`) returns all-zero counts on an empty register, but the
combined dashboard endpoint (`get_dashboard_data`) returns a no-data message
payload of a different shape there instead of zero counts. -/
theorem c5_kpi_counts :
    (∀ reg : List Entry,
        (get_dashboard_kpis reg).total_items =
          (reg.filter (fun e => !(e.failureState == ""))).length
        ∧ (get_dashboard_kpis reg).catastrophic_count =
            (reg.filter (fun e => e.hazardCategory == "灾难的 (Catastrophic)")).length
        ∧ (get_dashboard_kpis reg).hazardous_count =
            (reg.filter (fun e => e.hazardCategory == "危险的 (Hazardous)")).length)
    ∧ get_dashboard_kpis [] =
        { total_items := 0, catastrophic_count := 0, hazardous_count := 0 }
    ∧ (∀ reg : List Entry, reg ≠ [] →
        get_dashboard_data_kpis reg = some (get_dashboard_kpis reg))
    ∧ get_dashboard_data_kpis [] = none := by
  refine ⟨?_, rfl, ?_, rfl⟩
  · intro reg
    exact ⟨List.countP_eq_length_filter _ reg,
      List.countP_eq_length_filter _ reg, List.countP_eq_length_filter _ reg⟩
  · intro reg hne
    have h1 : reg.isEmpty = false := by simpa [List.isEmpty_iff] using hne
    unfold get_dashboard_data_kpis
    rw [h1]
    simp

/-- Witness for C5 at a concrete input: a one-row register. -/
theorem c5_kpi_counts_witness :
    get_dashboard_data_kpis [fromRow []] = some (get_dashboard_kpis [fromRow []]) :=
  c5_kpi_counts.2.2.1 [fromRow []] (by decide)

/-- C6: the cross-tabulation's columns are exactly the severity categories
occurring in the analyzed (non-empty function AND non-empty severity) rows,
listed in canonical severity rank order (a sublist of the fixed taxonomy),
never including the empty category; every cell counts the rows with that
(function, category) pair, and a combination absent from the data yields the
cell value 0 rather than being omitted.  The hypothesis restricts severity
cells to the fixed taxonomy, which is the spec's data model for the severity
field. -/
theorem c6_cross_tab_columns_and_cells (reg : List Entry)
    (hvalid : ∀ e ∈ reg, e.hazardCategory ∈ ARP4761_CATEGORIES) :
    (cross_columns reg).Sublist ARP4761_CATEGORIES
    ∧ "" ∉ cross_columns reg
    ∧ (∀ c, c ∈ cross_columns reg ↔ ∃ e ∈ analyzed reg, e.hazardCategory = c)
    ∧ (∀ f c, cross_cell reg f c =
        ((analyzed reg).filter (fun e => e.funcL1 == f && e.hazardCategory == c)).length)
    ∧ (∀ f c, (¬ ∃ e ∈ analyzed reg, e.funcL1 = f ∧ e.hazardCategory = c) →
        cross_cell reg f c = 0) := by
  refine ⟨List.filter_sublist _, ?_, ?_, ?_, ?_⟩
  · intro hmem
    have := List.of_mem_filter hmem
    simp at this
  · intro c
    constructor
    · intro hmem
      have hp := List.of_mem_filter hmem
      simp only [Bool.and_eq_true, List.elem_iff, Bool.not_eq_eq_eq_not, Bool.not_false,
        beq_iff_eq] at hp
      rcases List.mem_map.mp hp.1 with ⟨e, he, hc⟩
      exact ⟨e, he, hc⟩
    · rintro ⟨e, he, rfl⟩
      have hreg : e ∈ reg := List.mem_of_mem_filter he
      have hpred := List.of_mem_filter he
      simp only [Bool.and_eq_true, Bool.not_eq_eq_eq_not, Bool.not_false, beq_iff_eq] at hpred
      refine List.mem_filter.mpr ⟨hvalid e hreg, ?_⟩
      simp only [Bool.and_eq_true, List.elem_iff, Bool.not_eq_eq_eq_not, Bool.not_false,
        beq_iff_eq]
      exact ⟨List.mem_map.mpr ⟨e, he, rfl⟩, hpred.2⟩
  · intro f c
    exact List.countP_eq_length_filter _ _
  · intro f c hnone
    rw [cross_cell, List.countP_eq_zero]
    intro e he
    simp only [Bool.and_eq_true, beq_iff_eq, not_and]
    intro hf hc
    exact hnone ⟨e, he, hf, hc⟩

/-- Witness for C6 at a concrete input: the spec's Navigation scenario — two
analyzed rows (catastrophic, hazardous) and one row with unset severity. -/
theorem c6_cross_tab_columns_and_cells_witness :
    "" ∉ cross_columns
      [fromRow [("一级功能", "Navigation"), ("危害性分类", "灾难的 (Catastrophic)")],
       fromRow [("一级功能", "Navigation"), ("危害性分类", "危险的 (Hazardous)")],
       fromRow [("一级功能", "Navigation")]]
    ∧ (cross_columns
      [fromRow [("一级功能", "Navigation"), ("危害性分类", "灾难的 (Catastrophic)")],
       fromRow [("一级功能", "Navigation"), ("危害性分类", "危险的 (Hazardous)")],
       fromRow [("一级功能", "Navigation")]]).Sublist ARP4761_CATEGORIES :=
  ⟨(c6_cross_tab_columns_and_cells
      [fromRow [("一级功能", "Navigation"), ("危害性分类", "灾难的 (Catastrophic)")],
       fromRow [("一级功能", "Navigation"), ("危害性分类", "危险的 (Hazardous)")],
       fromRow [("一级功能", "Navigation")]] (by decide)).2.1,
   (c6_cross_tab_columns_and_cells
      [fromRow [("一级功能", "Navigation"), ("危害性分类", "灾难的 (Catastrophic)")],
       fromRow [("一级功能", "Navigation"), ("危害性分类", "危险的 (Hazardous)")],
       fromRow [("一级功能", "Navigation")]] (by decide)).1⟩

theorem map_fst_pairing {β : Type} (g : String → β) (L : List String) :
    (L.map (fun f => (f, g f))).map Prod.fst = L := by
  induction L with
  | nil => rfl
  | cons a l ih => simp [ih]

/-- C7 counterexample: with qualifying rows whose functions appear in the
order `B`, `A`, the sunburst emits its function nodes in sorted order
`A`, `B` — not in first-seen order `B`, `A` as the claim states (pandas
`groupby` sorts its group keys). -/
theorem c7_sunburst_not_first_seen_order :
    (sunburst_data
        [fromRow [("一级功能", "B"), ("危害性分类", "灾难的 (Catastrophic)")],
         fromRow [("一级功能", "A"), ("危害性分类", "灾难的 (Catastrophic)")]]).map
        (fun nodes => nodes.map Prod.fst)
      ≠ some (dedupKeepFirst
          ((qualified
            [fromRow [("一级功能", "B"), ("危害性分类", "灾难的 (Catastrophic)")],
             fromRow [("一级功能", "A"), ("危害性分类", "灾难的 (Catastrophic)")]]).map
            (·.funcL1))) := by
  decide

/-- C7 (amended): `hierarchicalBreakdown()` considers exactly the entries
with non-empty top-level function, non-empty severity, and severity not equal
to the lowest ("no safety effect") level; it emits one node per distinct
qualifying function name — in ascending lexicographic order of the name, not
first-seen order — whose children are one leaf per severity category present
for that function, each carrying that category's occurrence count; when no
entries qualify it produces the empty structure, not an error. -/
theorem c7_sunburst_structure (reg : List Entry) :
    (qualified reg = [] → sunburst_data reg = none)
    ∧ (qualified reg ≠ [] →
        ∃ nodes, sunburst_data reg = some nodes
          ∧ nodes.map Prod.fst = sortedDistinct ((qualified reg).map (·.funcL1))
          ∧ (nodes.map Prod.fst).Pairwise (fun a b => strLt a b = true)
          ∧ (∀ f, f ∈ nodes.map Prod.fst ↔ ∃ e ∈ qualified reg, e.funcL1 = f)
          ∧ ∀ p ∈ nodes,
              (∀ c, c ∈ p.2.map Prod.fst ↔
                ∃ e ∈ qualified reg, e.funcL1 = p.1 ∧ e.hazardCategory = c)
              ∧ ∀ q ∈ p.2, q.2 =
                  ((qualified reg).filter
                    (fun e => e.funcL1 == p.1 && e.hazardCategory == q.1)).length) := by
  constructor
  · intro h
    unfold sunburst_data
    rw [h]
    rfl
  · intro hne
    have h1 : (qualified reg).isEmpty = false := by simpa [List.isEmpty_iff] using hne
    refine ⟨(sortedDistinct ((qualified reg).map (·.funcL1))).map
      (fun f => (f, sunburst_children reg f)), ?_, ?_, ?_, ?_, ?_⟩
    · unfold sunburst_data
      rw [h1]
      simp
    · exact map_fst_pairing _ _
    · rw [map_fst_pairing]
      exact pairwise_sortedDistinct _
    · intro f
      rw [map_fst_pairing, mem_sortedDistinct]
      constructor
      · intro hm
        rcases List.mem_map.mp hm with ⟨e, he, hc⟩
        exact ⟨e, he, hc⟩
      · rintro ⟨e, he, rfl⟩
        exact List.mem_map.mpr ⟨e, he, rfl⟩
    · intro p hp
      rcases List.mem_map.mp hp with ⟨f, hf, rfl⟩
      constructor
      · intro c
        show c ∈ (sunburst_children reg f).map Prod.fst ↔ _
        unfold sunburst_children
        rw [map_fst_pairing, mem_sortedDistinct]
        constructor
        · intro hm
          rcases List.mem_map.mp hm with ⟨e, he, hc⟩
          have hq : e ∈ qualified reg := List.mem_of_mem_filter he
          have hfe := List.of_mem_filter he
          simp only [beq_iff_eq] at hfe
          exact ⟨e, hq, hfe, hc⟩
        · rintro ⟨e, he, hef, rfl⟩
          refine List.mem_map.mpr ⟨e, ?_, rfl⟩
          exact List.mem_filter.mpr ⟨he, by simpa using hef⟩
      · intro q hq
        rcases List.mem_map.mp hq with ⟨c, _, rfl⟩
        exact List.countP_eq_length_filter _ _

/-- Witness for C7 at a concrete input: a register with two qualifying rows. -/
theorem c7_sunburst_structure_witness :
    ∃ nodes, sunburst_data
        [fromRow [("一级功能", "B"), ("危害性分类", "灾难的 (Catastrophic)")],
         fromRow [("一级功能", "A"), ("危害性分类", "灾难的 (Catastrophic)")]] = some nodes :=
  match (c7_sunburst_structure
      [fromRow [("一级功能", "B"), ("危害性分类", "灾难的 (Catastrophic)")],
       fromRow [("一级功能", "A"), ("危害性分类", "灾难的 (Catastrophic)")]]).2
      (by decide) with
  | ⟨nodes, hnodes, _⟩ => ⟨nodes, hnodes⟩

end FHA
